import Mathlib

/-!
Shallow embedding of the pymame repository's core parsing and
machine-composition logic, for checking the natural-language specification
against the code.  Python strings are modelled as `List Char`; Python
`dict`s as insertion-ordered association lists; raisable errors as
`Option`/`Except` results.
-/

/-- The set of characters Python's `str.strip()` removes (ASCII whitespace). -/
def isWS (c : Char) : Bool :=
  c = ' ' || c = '\t' || c = '\n' || c = '\r' || c = Char.ofNat 11 || c = Char.ofNat 12

/-- Python `str.strip()` on a `List Char`. -/
def pyStrip (l : List Char) : List Char :=
  ((l.dropWhile isWS).reverse.dropWhile isWS).reverse

/-- Python `str.removeprefix(p)`: drop `p` when it is a prefix, else unchanged. -/
def dropPfx (p l : List Char) : List Char :=
  if p.isPrefixOf l then l.drop p.length else l

/-- Leftmost occurrence of `sep` in `l`, returning the parts before and after
(the model of Python `str.find` / the first step of `str.split`). -/
def findSub (sep : List Char) : List Char → Option (List Char × List Char)
  | [] => if sep = [] then some ([], []) else none
  | c :: rest =>
    if sep.isPrefixOf (c :: rest) then some ([], (c :: rest).drop sep.length)
    else
      match findSub sep rest with
      | some (a, b) => some (c :: a, b)
      | none => none

/-- Python `str.partition(sep)`: `(before, found?, after)` at the first occurrence. -/
def pyPartition (sep l : List Char) : List Char × Bool × List Char :=
  match findSub sep l with
  | some (a, b) => (a, true, b)
  | none => (l, false, [])

/-- Python `str.split(sep)` (fuel-indexed so the recursion is structural). -/
def splitSepF : Nat → List Char → List Char → List (List Char)
  | 0, _, l => [l]
  | fuel + 1, sep, l =>
    match findSub sep l with
    | none => [l]
    | some (a, b) => a :: splitSepF fuel sep b

/-- Python `str.split(sep)`. -/
def splitSep (sep l : List Char) : List (List Char) :=
  splitSepF l.length sep l

/-- The machine-type classification enumeration from `wrappers/catlist.py`. -/
inductive MachineType where
  | Arcade | BIOS | CoinPusher | ConsoleCartridge | Gambling | Handheld
  | LCDHandheld | Redemption | MedalGame | Mechanical | Pinball
  | PlugAndPlay | PrintClub | Other
deriving DecidableEq

/-- The state `CatlistCategory.__init__` builds: the category (before ` * `),
whether an extra part was present, the extra, and the ` / `-split components
of the category after removing a leading `Arcade: `. -/
structure CatlistCategory where
  category : List Char
  hasExtra : Bool
  extra : List Char
  components : List (List Char)
deriving DecidableEq

/-- `CatlistCategory.__init__` from `wrappers/catlist.py`. -/
def catlistOfString (s : List Char) : CatlistCategory :=
  let p := pyPartition " * ".data s
  { category := p.1
    hasExtra := p.2.1
    extra := p.2.2
    components := splitSep " / ".data (dropPfx "Arcade: ".data p.1) }

/-- `CatlistCategory.is_arcade`. -/
def catIsArcade (c : CatlistCategory) : Bool :=
  "Arcade: ".data.isPrefixOf c.category

/-- `CatlistCategory.is_mature`. -/
def catIsMature (c : CatlistCategory) : Bool :=
  c.extra = "Mature".data

/-- The apostrophe character (U+0027), used inside one catlist component. -/
def apos : Char := Char.ofNat 39

/-- `CatlistCategory._is_plug_and_play`: first component `Handheld` and the
component `Plug n' Play TV Game` present anywhere. -/
def catIsPlugAndPlay (c : CatlistCategory) : Bool :=
  c.components.headD [] = "Handheld".data &&
    c.components.contains ("Plug n".data ++ [apos] ++ " Play TV Game".data)

/-- The `genre_types` dict lookup in `CatlistCategory.machine_type`. -/
def lookupGenreType (c0 : List Char) : Option MachineType :=
  if c0 = "Slot Machine".data then some .Gambling
  else if c0 = "Casino".data then some .Gambling
  else if c0 = "Redemption Game".data then some .Redemption
  else if c0 = "Medal Game".data then some .MedalGame
  else if c0 = "Coin Pusher".data then some .CoinPusher
  else if c0 = "Print Club".data then some .PrintClub
  else none

/-- `CatlistCategory.machine_type`.  `none` models a raised `IndexError`
(reading `self._components[1]` when it does not exist). -/
def machineTypeOf (c : CatlistCategory) : Option MachineType :=
  if c.category = "Arcade: System / BIOS".data then some .BIOS
  else
    match c.components with
    | [] => none
    | c0 :: restComps =>
      match lookupGenreType c0 with
      | some t => some t
      | none =>
        if c0 = "Electromechanical".data then
          match restComps with
          | [] => none
          | c1 :: _ => some (if c1 = "Pinball".data then .Pinball else .Mechanical)
        else if catIsArcade c then some .Arcade
        else if catIsPlugAndPlay c then some .PlugAndPlay
        else if c.category = "Handheld / Electronic Game".data then some .LCDHandheld
        else some .Other

/-- `CatlistCategory.genre`.  Outer `none` models a raised `IndexError`;
`some none` models a returned Python `None`. -/
def genreOf (c : CatlistCategory) : Option (Option (List Char)) :=
  (machineTypeOf c).bind fun t =>
    if t = .Mechanical ∨ t = .Redemption ∨ t = .MedalGame then
      match c.components.get? 1 with
      | some g => some (some g)
      | none => none
    else if catIsArcade c then
      match c.components.get? 0 with
      | some g => some (some g)
      | none => none
    else if catIsPlugAndPlay c ∧ 2 < c.components.length then
      match c.components.get? 2 with
      | some g => some (some g)
      | none => none
    else some none

/-- `CatlistCategory.subgenre`.  Outer `none` models a raised `IndexError`;
`some none` models a returned Python `None`. -/
def subgenreOf (c : CatlistCategory) : Option (Option (List Char)) :=
  (machineTypeOf c).bind fun t =>
    if t = .Mechanical ∨ t = .Redemption ∨ t = .MedalGame then
      some (c.components.get? 2)
    else if catIsArcade c ∧ 1 < c.components.length then
      match c.components.get? 1 with
      | some g => some (some g)
      | none => none
    else some none

/-- One attempted match of the pattern `\n- (.+) -\n` at the head of the list
(`.` does not match a newline, `.+` is greedy).  Returns the captured group
and the remainder after the match. -/
def matchHead (l : List Char) : Option (List Char × List Char) :=
  match l with
  | c1 :: c2 :: c3 :: rest =>
    if c1 = '\n' ∧ c2 = '-' ∧ c3 = ' ' then
      let u := rest.takeWhile (fun c => c ≠ '\n')
      match rest.drop u.length with
      | c4 :: tail' =>
        if c4 = '\n' then
          match u.reverse with
          | d1 :: d2 :: grev =>
            if d1 = '-' ∧ d2 = ' ' ∧ grev ≠ [] then some (grev.reverse, tail')
            else none
          | _ => none
        else none
      | [] => none
    else none
  | _ => none

/-- Leftmost match of `\n- (.+) -\n` in `l`: text before the match, the
captured section name, and the text after the match. -/
def findDelim : List Char → Option (List Char × List Char × List Char)
  | [] => none
  | c :: rest =>
    match matchHead (c :: rest) with
    | some (h, b) => some ([], h, b)
    | none =>
      match findDelim rest with
      | some (a, h, b) => some (c :: a, h, b)
      | none => none

/-- `re.split` with the pattern `\n- (.+) -\n` (one capture group): the
alternating list `piece, header, piece, header, ..., piece` (fuel-indexed). -/
def splitPiecesF : Nat → List Char → List (List Char)
  | 0, l => [l]
  | fuel + 1, l =>
    match findDelim l with
    | none => [l]
    | some (a, h, b) => a :: h :: splitPiecesF fuel b

/-- `re.split` with the pattern `\n- (.+) -\n`. -/
def splitPieces (l : List Char) : List (List Char) :=
  splitPiecesF l.length l

/-- Number of non-overlapping matches of the section-delimiter pattern
(fuel-indexed). -/
def countDelimsF : Nat → List Char → Nat
  | 0, _ => 0
  | fuel + 1, l =>
    match findDelim l with
    | none => 0
    | some (_, _, b) => countDelimsF fuel b + 1

/-- Number of non-overlapping matches of the section-delimiter pattern. -/
def countDelims (l : List Char) : Nat :=
  countDelimsF l.length l

/-- The delimiter text a header `h` stood for: `\n- h -\n`. -/
def delimOf (h : List Char) : List Char :=
  '\n' :: '-' :: ' ' :: (h ++ [' ', '-', '\n'])

/-- Reassemble an alternating piece/header list into the original text. -/
def reassemble : List (List Char) → List Char
  | [] => []
  | [p] => p
  | p :: h :: rest => p ++ delimOf h ++ reassemble rest

/-- Elements at even indices (the bodies of a `re.split` result). -/
def evens {α : Type} : List α → List α
  | [] => []
  | [a] => [a]
  | a :: _ :: l => a :: evens l

/-- Elements at odd indices (the captured headers of a `re.split` result). -/
def odds {α : Type} : List α → List α
  | [] => []
  | [_] => []
  | _ :: b :: l => b :: odds l

/-- Python `dict` assignment `d[k] = v` on an insertion-ordered association
list: overwrite in place when the key exists, else append. -/
def setKey {α : Type} : List (List Char × α) → List Char → α → List (List Char × α)
  | [], k, v => [(k, v)]
  | (k', v') :: rest, k, v =>
    if k' = k then (k, v) :: rest else (k', v') :: setKey rest k v

/-- Python `dict.get` on an insertion-ordered association list. -/
def getKey {α : Type} : List (List Char × α) → List Char → Option α
  | [], _ => none
  | (k', v') :: rest, k => if k' = k then some v' else getKey rest k

/-- The loop body of `parse_info_sections` over the header/body pairs that
follow the leading piece. -/
def goPairs (acc : List (List Char × List Char)) :
    List (List Char) → List (List Char × List Char)
  | [] => acc
  | [_] => acc
  | h :: p :: rest => goPairs (setKey acc h (pyStrip p)) rest

/-- Fold the `re.split` result into the section dict, as the enumerate-parity
loop of `parse_info_sections` does: the leading piece under the empty-string
key, then each header mapped to its trimmed body. -/
def buildSections : List (List Char) → List (List Char × List Char)
  | [] => []
  | p0 :: rest => goPairs [([], pyStrip p0)] rest

/-- `parse_info_sections` from `support_files/history.py`. -/
def parseInfoSections (text : List Char) : List (List Char × List Char) :=
  buildSections (splitPieces text)

/-- The headers of a header-first alternating tail (the part of a `re.split`
result after the leading piece), ignoring a trailing unpaired element. -/
def pairKeys {α : Type} : List α → List α
  | [] => []
  | [_] => []
  | h :: _ :: rest => h :: pairKeys rest

/-- The bodies paired with `pairKeys`. -/
def pairVals {α : Type} : List α → List α
  | [] => []
  | [_] => []
  | _ :: p :: rest => p :: pairVals rest

/-- Join a list of lines with newlines (Python `'\n'.join`). -/
def joinNL : List (List Char) → List Char
  | [] => []
  | [x] => x
  | x :: y :: xs => x ++ '\n' :: joinNL (y :: xs)

/-- Python `str.splitlines()` for texts whose line separator is `\n`:
like splitting on `\n` but with no empty final piece after a trailing
newline, and the empty string yielding no lines. -/
def pySplitlines (l : List Char) : List (List Char) :=
  if l = [] then []
  else
    let parts := splitSep ['\n'] l
    if l.getLast? = some '\n' then parts.dropLast else parts

/-- The fixed `normal_sections` header set of `MAMEInfoEntry.__init__`. -/
def normalSections : List (List Char) :=
  ["WIP:", "CHANGES:", "TODO:", "TEST MODE:", "Bugs:", "NOTE:", "NOTES:",
   "SETUP:", "SETUP and TEST MODE:", "SERVICE MODE:", "SETUP/SERVICE MODE:",
   "STORY:", "HOW TO PLAY:"].map String.data

/-- The fixed `list_sections` header set of `MAMEInfoEntry.__init__`. -/
def listSectionHeaders : List (List Char) :=
  ["BIOS:", "DEVICE:", "ROMS:", "Other Emulators:"].map String.data

/-- The three destination buckets a `MAMEInfoEntry` accumulates. -/
structure MAMEInfoEntry where
  sections : List (List Char × List Char)
  listSections : List (List Char × List (List Char))
  recommendedGames : List (List Char × List (List Char))
deriving DecidableEq

/-- The loop state of `MAMEInfoEntry.__init__`: the buckets built so far plus
`current_section`, `current_lines` and `current_is_list`. -/
structure MIState where
  entry : MAMEInfoEntry
  currentSection : List Char
  currentLines : List (List Char)
  currentIsList : Bool
deriving DecidableEq

/-- The nested `finish()` helper of `MAMEInfoEntry.__init__`: flush the
accumulated non-empty lines into the bucket named by `current_section`. -/
def miFinish (st : MIState) : MIState :=
  let lines := st.currentLines.filter (fun l => l ≠ [])
  let e := st.entry
  let e' :=
    if "Recommended Games".data.isPrefixOf st.currentSection then
      let key :=
        if st.currentSection.contains '(' then
          (dropPfx "Recommended Games (".data st.currentSection).dropLast
        else "Games".data
      { e with recommendedGames := setKey e.recommendedGames key lines }
    else if st.currentIsList then
      { e with listSections := setKey e.listSections st.currentSection lines }
    else
      { e with sections := setKey e.sections st.currentSection (joinNL lines) }
  { st with entry := e', currentLines := [] }

/-- One iteration of the line loop of `MAMEInfoEntry.__init__`. -/
def miStep (st : MIState) (line : List Char) : MIState :=
  if line ∈ normalSections ∨ line ∈ listSectionHeaders then
    let st' := miFinish st
    { st' with currentSection := line.dropLast,
               currentIsList := decide (line ∈ listSectionHeaders) }
  else if "Recommended Games".data.isPrefixOf line then
    let st' := miFinish st
    { st' with currentSection := line.dropLast }
  else if "LEVELS:".data.isPrefixOf line then
    let st' := miFinish st
    let e := st'.entry
    let v := pyStrip (dropPfx "LEVELS:".data line)
    let e' := { e with sections := setKey e.sections "Levels".data v }
    { st' with currentSection := "Levels".data, currentIsList := false, entry := e' }
  else if "ARCADE RELEASE:".data.isPrefixOf line then
    let st' := miFinish st
    let e := st'.entry
    let v := pyStrip (dropPfx "ARCADE RELEASE:".data line)
    let e' := { e with sections := setKey e.sections "Release date".data v }
    { st' with currentSection := "Release date".data, currentIsList := false, entry := e' }
  else if "Romset:".data.isPrefixOf line || "CHD:".data.isPrefixOf line then
    st
  else
    { st with currentLines :=
        st.currentLines ++ [pyStrip (dropPfx "* ".data (dropPfx "- ".data line))] }

/-- The initial loop state of `MAMEInfoEntry.__init__`. -/
def miInit : MIState :=
  { entry := ⟨[], [], []⟩
    currentSection := "summary".data
    currentLines := []
    currentIsList := false }

/-- `MAMEInfoEntry.__init__` from `support_files/mameinfo.py`: fold the line
loop over `contents.splitlines()`.  Note the source calls `finish()` only on
section transitions inside the loop; nothing flushes the final state after
the loop ends. -/
def mameInfoOf (contents : List Char) : MAMEInfoEntry :=
  ((pySplitlines contents).foldl miStep miInit).entry

/-- Python `line.split('=', 1)[1]`: text after the first `=`, `none` when the
line has no `=` (a raised `IndexError`). -/
def datAfterEq (l : List Char) : Option (List Char) :=
  (findSub ['='] l).map (·.2)

/-- The line loop of `_parse_dat_raw` from `support_files/dat.py`, with the
running `current_name`, `current_info` and result dict.  `none` models the
`IndexError` raised by a `$info` line without `=`. -/
def datGo : List (List Char) → Option (List Char) → List (List Char) →
    List (List Char × List Char) → Option (List (List Char × List Char))
  | [], _, _, d => some d
  | raw :: rest, currentName, currentInfo, d =>
    let line := pyStrip raw
    if "$info".data.isPrefixOf line then
      match datAfterEq line with
      | none => none
      | some name => datGo rest (some name) [] d
    else
      match currentName with
      | some nm =>
        if line = "$end".data then
          datGo rest none currentInfo (setKey d nm (joinNL (currentInfo.drop 1)))
        else
          datGo rest (some nm) (currentInfo ++ [line]) d
      | none => datGo rest none currentInfo d

/-- `_parse_dat_raw` from `support_files/dat.py`, over the file's lines. -/
def parseDatRaw (rawLines : List (List Char)) : Option (List (List Char × List Char)) :=
  datGo rawLines none [] []

/-- `DatsFolder.get_dat_info` over an already-read .dat file's lines: the
parsed dict's `.get(basename)`.  Outer `none` models a parse crash. -/
def getDatInfo (rawLines : List (List Char)) (basename : List Char) :
    Option (Option (List Char)) :=
  (parseDatRaw rawLines).map (fun d => getKey d basename)

/-- `defaultdict(set)` member insertion `d[k].add(v)` for the category
parser, keeping sections in first-insertion order; only membership in the
value collection is ever observed. -/
def addMember : List (List Char × List (List Char)) → List Char → List Char →
    List (List Char × List (List Char))
  | [], k, v => [(k, [v])]
  | (k', vs) :: rest, k, v =>
    if k' = k then (k', vs ++ [v]) :: rest else (k', vs) :: addMember rest k v

/-- The line loop of `parse_mame_cat_ini` from `support_files/cats.py`:
comments skipped, `[SECTION]` headers switch section (dropping the first and
last character), and other lines join the current section's set when the
current section name is truthy. -/
def catIniGo : List (List Char) → Option (List Char) →
    List (List Char × List (List Char)) → List (List Char × List (List Char))
  | [], _, d => d
  | raw :: rest, currentSection, d =>
    let line := pyStrip raw
    if [';'].isPrefixOf line then catIniGo rest currentSection d
    else if ['['].isPrefixOf line then
      catIniGo rest (some ((line.drop 1).dropLast)) d
    else
      match currentSection with
      | some s =>
        if s ≠ [] then catIniGo rest currentSection (addMember d s line)
        else catIniGo rest currentSection d
      | none => catIniGo rest currentSection d

/-- `parse_mame_cat_ini` over the file's lines. -/
def parseCatIni (rawLines : List (List Char)) : List (List Char × List (List Char)) :=
  catIniGo rawLines none []

/-- A loaded `CategoryFolder`: category name (file stem) to its section
mapping. -/
def CatFolder : Type := List (List Char × List (List Char × List (List Char)))

/-- `CategoryFolder.get_cats`: the section names whose member set contains
`basename`, in file order of first appearance.  The source builds a Python
`set` of these names; the names are pairwise distinct (dict keys), so only
the order of this list is not source-guaranteed.  An unknown category (and a
falsy empty mapping) gives the empty collection. -/
def getCats (folder : CatFolder) (catName basename : List Char) : List (List Char) :=
  match getKey folder catName with
  | none => []
  | some cat => (cat.filter (fun p => basename ∈ p.2)).map (·.1)

/-- `CategoryFolder.get_cat`: `None` on no match, else `next(iter(sections))`
of the match set.  Python leaves a `set`'s iteration order unspecified (it
varies with per-run string-hash randomization), so the order in which the
set yields its elements is a parameter `enum`; a faithful instantiation is
any function producing a permutation.  The ambiguity warning is only a log
line and has no modelled effect. -/
def getCat (enum : List (List Char) → List (List Char)) (folder : CatFolder)
    (catName basename : List Char) : Option (List Char) :=
  let s := getCats folder catName basename
  if s = [] then none else (enum s).head?

/-- The attributes of a parsed `<machine>` element that parent/BIOS
resolution reads: `name` attribute, `<description>`, `cloneof`, `romof`. -/
structure MachineElementM where
  basename : List Char
  name : List Char
  parentBasename : Option (List Char)
  biosBasename : Option (List Char)
deriving DecidableEq

/-- Python truthiness of an optional string: `some` of a nonempty string
passes, `None` and the empty string do not. -/
def pyName : Option (List Char) → Option (List Char)
  | some s => if s = [] then none else some s
  | none => none

/-- A constructed `Machine` composite view: the element plus the parent and
BIOS collaborators resolved at construction time. -/
inductive MachineM where
  | mk (element : MachineElementM) (parent : Option MachineM) (bios : Option MachineM)

/-- The element a `Machine` wraps. -/
def MachineM.element : MachineM → MachineElementM
  | .mk e _ _ => e

/-- The parent collaborator resolved at construction. -/
def MachineM.parent : MachineM → Option MachineM
  | .mk _ p _ => p

/-- The BIOS collaborator resolved at construction. -/
def MachineM.bios : MachineM → Option MachineM
  | .mk _ _ b => b

/-- `Machine.bios_basename` (the cached property with the single-hop BIOS
self-reference correction).  Outer `none` models the `AssertionError` raised
when the correction fires but the machine has no parent object. -/
def MachineM.biosBasename : MachineM → Option (Option (List Char))
  | .mk el (some p) _ =>
    if (pyName el.biosBasename).isSome ∧ el.biosBasename = el.parentBasename then
      p.biosBasename
    else some el.biosBasename
  | .mk el none _ =>
    if (pyName el.biosBasename).isSome ∧ el.biosBasename = el.parentBasename then
      none
    else some el.biosBasename

/-- `Machine.bios_name`: the display name of the constructed `bios`
collaborator, `None` when there is none. -/
def MachineM.biosName : MachineM → Option (List Char)
  | .mk _ _ (some bm) => some bm.element.name
  | .mk _ _ none => none

/-- The errors machine construction can raise: `KeyError` from the
authoritative entity lookup, the `assert self.parent` failure inside
`Machine.bios_basename`, and an artifact marker for running out of
recursion fuel (Python would hit `RecursionError` on a parent cycle). -/
inductive MErr where
  | keyError (basename : List Char)
  | assertionError
  | depthExceeded
deriving DecidableEq

/-- The authoritative entity source: the dict built from the `-listxml`
output, basename to machine element. -/
def MachineSrc : Type := List (List Char × MachineElementM)

/-- `_get_machine_element` on the `settings.xml_path` path: a plain dict
index, raising `KeyError` when the basename is absent. -/
def getMachineElement (src : MachineSrc) (basename : List Char) :
    Except MErr MachineElementM :=
  match getKey src basename with
  | some el => pure el
  | none => Except.error (.keyError basename)

/-- `get_machine` from `wrappers/machine.py` (the blocking surface): resolve
the parent from `element.parent_basename` and the BIOS directly from
`element.bios_basename`, then construct the `Machine`. -/
def getMachine (src : MachineSrc) : Nat → List Char → Except MErr MachineM
  | 0, _ => Except.error .depthExceeded
  | fuel + 1, basename => do
    let el ← getMachineElement src basename
    let parent : Option MachineM ←
      match pyName el.parentBasename with
      | some pb => (getMachine src fuel pb).map some
      | none => pure none
    let bios : Option MachineM ←
      match pyName el.biosBasename with
      | some bb => (getMachine src fuel bb).map some
      | none => pure none
    pure (.mk el parent bios)

/-- `get_machine_async` from `wrappers/machine.py` (the suspend-capable
surface): resolve the parent as the blocking surface does, but resolve the
BIOS from `parent.bios_basename if parent else element.bios_basename`. -/
def getMachineAsync (src : MachineSrc) : Nat → List Char → Except MErr MachineM
  | 0, _ => Except.error .depthExceeded
  | fuel + 1, basename => do
    let el ← getMachineElement src basename
    let parent : Option MachineM ←
      match pyName el.parentBasename with
      | some pb => (getMachineAsync src fuel pb).map some
      | none => pure none
    let biosBasename : Option (List Char) ←
      match parent with
      | some p =>
        match p.biosBasename with
        | some bb => pure bb
        | none => Except.error .assertionError
      | none => pure el.biosBasename
    let bios : Option MachineM ←
      match pyName biosBasename with
      | some bb => (getMachineAsync src fuel bb).map some
      | none => pure none
    pure (.mk el parent bios)

/-- Observe a construction result through `Machine.bios_name`: `none` when
construction raised. -/
def biosNameOfResult : Except MErr MachineM → Option (Option (List Char))
  | .ok m => some m.biosName
  | .error _ => none

/-- Observe a construction result's error, when it raised. -/
def errOfResult : Except MErr MachineM → Option MErr
  | .ok _ => none
  | .error e => some e

/-- One row of the play-time store, with the two durations in microseconds. -/
structure TimerDBRow where
  totalTime : Int
  playCount : Int
  emulatedTime : Int
deriving DecidableEq

/-- The loaded play-time store (the machine-keyed half that
`Machine._timer_db_row` reads). -/
structure TimerDB where
  systems : List (List Char × TimerDBRow)

/-- The settings slice the play-time properties read. -/
structure MSettings where
  timerDbPath : Option (List Char)

/-- `Machine._timer_db_row`: `None` without a configured store path, a
failed load (`try_load_timer_db` returning `None`), or an absent basename.
`loadDb` stands for the external `try_load_timer_db` collaborator. -/
def timerDbRowOf (settings : MSettings) (loadDb : List Char → Option TimerDB)
    (basename : List Char) : Option TimerDBRow :=
  match settings.timerDbPath with
  | none => none
  | some p =>
    match loadDb p with
    | none => none
    | some db => getKey db.systems basename

/-- `Machine.total_time_played`: the row's total time, else the zero
duration. -/
def totalTimePlayed (settings : MSettings) (loadDb : List Char → Option TimerDB)
    (basename : List Char) : Int :=
  match timerDbRowOf settings loadDb basename with
  | some row => row.totalTime
  | none => 0

/-- `Machine.play_count`: the row's play count, else `0`. -/
def playCount (settings : MSettings) (loadDb : List Char → Option TimerDB)
    (basename : List Char) : Int :=
  match timerDbRowOf settings loadDb basename with
  | some row => row.playCount
  | none => 0

/-- `Machine.total_time_emulated`: the row's emulated time, else the zero
duration. -/
def totalTimeEmulated (settings : MSettings) (loadDb : List Char → Option TimerDB)
    (basename : List Char) : Int :=
  match timerDbRowOf settings loadDb basename with
  | some row => row.emulatedTime
  | none => 0

/-- Concrete machine source for the sync/async divergence: clone `c` whose
declared BIOS pointer duplicates its parent pointer `p`, parent `p` with
BIOS `b`. -/
def exSrc : MachineSrc :=
  [("c".data, ⟨"c".data, "Clone game".data, some "p".data, some "p".data⟩),
   ("p".data, ⟨"p".data, "Parent game".data, none, some "b".data⟩),
   ("b".data, ⟨"b".data, "BIOS board".data, none, none⟩)]

/-- Concrete machine source whose only machine declares a parent basename
that the source does not contain. -/
def srcMissingParent : MachineSrc :=
  [("c".data, ⟨"c".data, "Lone clone".data, some "ghost".data, none⟩)]

/-- Concrete category folder: one `genre` category whose file lists basename
`m` under section `A` and again under section `B`. -/
def exFolder : CatFolder :=
  [("genre".data, parseCatIni (["[A]", "m", "[B]", "m"].map String.data))]

/-- Concrete machine element and parent machine for the BIOS-correction
witness: the element's declared BIOS pointer equals its parent pointer. -/
def elW : MachineElementM := ⟨"c".data, "Clone game".data, some "p".data, some "p".data⟩

/-- The parent machine object for the BIOS-correction witness. -/
def pW : MachineM := .mk ⟨"p".data, "Parent game".data, none, some "b".data⟩ none none

/-- Concrete machine element with a BIOS pointer that differs from its
parent pointer. -/
def elW2 : MachineElementM := ⟨"d".data, "Other game".data, some "p".data, some "b".data⟩

theorem splitSepF_ne_nil (fuel : Nat) (sep l : List Char) : splitSepF fuel sep l ≠ [] := by
  cases fuel with
  | zero => simp [splitSepF]
  | succ n =>
    simp only [splitSepF]
    cases findSub sep l with
    | none => simp
    | some ab => cases ab with | mk a b => simp

theorem catlist_components_ne_nil (s : List Char) :
    (catlistOfString s).components ≠ [] := by
  simp only [catlistOfString]
  exact splitSepF_ne_nil _ _ _

theorem machineTypeOf_mrm (c : CatlistCategory) (t : MachineType)
    (ht : machineTypeOf c = some t)
    (hm : t = .Mechanical ∨ t = .Redemption ∨ t = .MedalGame) :
    2 ≤ c.components.length ∨ c.components.headD [] = "Redemption Game".data ∨
      c.components.headD [] = "Medal Game".data := by
  simp only [machineTypeOf] at ht
  by_cases hb : c.category = "Arcade: System / BIOS".data
  · simp only [hb, if_true, Option.some.injEq] at ht
    rcases hm with h | h | h <;> (subst h; simp at ht)
  simp only [hb, if_false] at ht
  rcases hcomp : c.components with _ | ⟨c0, rest⟩
  · simp only [hcomp] at ht
    simp at ht
  simp only [hcomp] at ht
  rcases hlk : lookupGenreType c0 with _ | t'
  · simp only [hlk] at ht
    by_cases he : c0 = "Electromechanical".data
    · rcases rest with _ | ⟨c1, rest'⟩
      · simp only [he, if_true] at ht
        simp at ht
      · left; simp [hcomp]
    · simp only [he, if_false] at ht
      by_cases ha : catIsArcade c = true
      · simp only [ha, if_true, Option.some.injEq] at ht
        rcases hm with h | h | h <;> (subst h; simp at ht)
      simp only [ha, if_false] at ht
      by_cases hp : catIsPlugAndPlay c = true
      · simp only [hp, if_true, Option.some.injEq] at ht
        rcases hm with h | h | h <;> (subst h; simp at ht)
      simp only [hp, if_false] at ht
      by_cases hh : c.category = "Handheld / Electronic Game".data
      · simp only [hh, if_true, Option.some.injEq] at ht
        rcases hm with h | h | h <;> (subst h; simp at ht)
      · simp only [hh, if_false, Option.some.injEq] at ht
        rcases hm with h | h | h <;> (subst h; simp at ht)
  · simp only [hlk, Option.some.injEq] at ht
    subst ht
    simp only [lookupGenreType] at hlk
    by_cases h1 : c0 = "Slot Machine".data
    · simp only [h1, if_true, Option.some.injEq] at hlk
      rcases hm with h | h | h <;> (subst h; simp at hlk)
    simp only [h1, if_false] at hlk
    by_cases h2 : c0 = "Casino".data
    · simp only [h2, if_true, Option.some.injEq] at hlk
      rcases hm with h | h | h <;> (subst h; simp at hlk)
    simp only [h2, if_false] at hlk
    by_cases h3 : c0 = "Redemption Game".data
    · right; left; simp [hcomp, h3]
    simp only [h3, if_false] at hlk
    by_cases h4 : c0 = "Medal Game".data
    · right; right; simp [hcomp, h4]
    simp only [h4, if_false] at hlk
    by_cases h5 : c0 = "Coin Pusher".data
    · simp only [h5, if_true, Option.some.injEq] at hlk
      rcases hm with h | h | h <;> (subst h; simp at hlk)
    simp only [h5, if_false] at hlk
    by_cases h6 : c0 = "Print Club".data
    · simp only [h6, if_true, Option.some.injEq] at hlk
      rcases hm with h | h | h <;> (subst h; simp at hlk)
    · simp only [h6, if_false] at hlk
      simp at hlk

theorem catlist_total_core (c : CatlistCategory) (hne : c.components ≠ [])
    (h : 2 ≤ c.components.length ∨
      (c.components.headD [] ≠ "Electromechanical".data ∧
       c.components.headD [] ≠ "Redemption Game".data ∧
       c.components.headD [] ≠ "Medal Game".data)) :
    (machineTypeOf c).isSome ∧ (genreOf c).isSome ∧ (subgenreOf c).isSome := by
  have hmt : (machineTypeOf c).isSome := by
    simp only [machineTypeOf]
    by_cases hb : c.category = "Arcade: System / BIOS".data
    · simp [hb]
    simp only [hb, if_false]
    rcases hcomp : c.components with _ | ⟨c0, rest⟩
    · exact absurd hcomp hne
    simp only []
    rcases hlk : lookupGenreType c0 with _ | t'
    · simp only [hlk]
      by_cases he : c0 = "Electromechanical".data
      · rcases rest with _ | ⟨c1, rest'⟩
        · rcases h with h | h
          · rw [hcomp] at h; simp at h
          · rw [hcomp] at h; exact absurd he h.1
        · simp [he]
      · simp only [he, if_false]
        split <;> try simp
        split <;> try simp
        split <;> simp
    · simp [hlk]
  obtain ⟨t, hmt'⟩ := Option.isSome_iff_exists.mp hmt
  refine ⟨hmt, ?_, ?_⟩
  · simp only [genreOf, hmt', Option.some_bind]
    by_cases hset : t = .Mechanical ∨ t = .Redemption ∨ t = .MedalGame
    · have h2 : 2 ≤ c.components.length := by
        rcases machineTypeOf_mrm c t hmt' hset with h' | h' | h'
        · exact h'
        · rcases h with h | h
          · exact h
          · exact absurd h' h.2.1
        · rcases h with h | h
          · exact h
          · exact absurd h' h.2.2
      rcases hg : c.components.get? 1 with _ | g
      · have := List.get?_eq_none.mp hg
        omega
      · simp [hset, hg]
    · simp only [hset, if_false]
      by_cases ha : catIsArcade c = true
      · rcases hg0 : c.components.get? 0 with _ | g
        · have := List.get?_eq_none.mp hg0
          have : c.components = [] := by
            cases hc : c.components <;> simp_all
          exact absurd this hne
        · simp [ha, hg0]
      · simp only [ha, if_false]
        by_cases hpp : catIsPlugAndPlay c = true ∧ 2 < c.components.length
        · rcases hg2 : c.components.get? 2 with _ | g
          · have := List.get?_eq_none.mp hg2
            omega
          · simp [hpp, hg2]
        · simp [hpp]
  · simp only [subgenreOf, hmt', Option.some_bind]
    by_cases hset : t = .Mechanical ∨ t = .Redemption ∨ t = .MedalGame
    · simp [hset]
    · simp only [hset, if_false]
      by_cases ha : catIsArcade c = true ∧ 1 < c.components.length
      · rcases hg1 : c.components.get? 1 with _ | g
        · have := List.get?_eq_none.mp hg1
          omega
        · simp [ha, hg1]
      · simp [ha]

/-- C3 counterexample: on the input string `"Electromechanical"` the parser
is not total — `machine_type` (and hence `genre` and `subgenre`) raises
`IndexError` reading `self._components[1]`, modelled as `none`. -/
theorem catlist_machine_type_raises_on_electromechanical :
    machineTypeOf (catlistOfString "Electromechanical".data) = none ∧
    genreOf (catlistOfString "Electromechanical".data) = none ∧
    subgenreOf (catlistOfString "Electromechanical".data) = none := by
  decide

/-- C3 (amended): constructing a `CatlistCategory` and reading
`machine_type`, `genre` and `subgenre` succeeds without raising for every
input string except those whose component list is the single component
`Electromechanical`, `Redemption Game` or `Medal Game` (there an unguarded
`components[1]` read raises `IndexError`); `Other` remains the fallback for
strings matching no known pattern. -/
theorem catlist_parser_total_amended (s : List Char)
    (h : 2 ≤ (catlistOfString s).components.length ∨
      ((catlistOfString s).components.headD [] ≠ "Electromechanical".data ∧
       (catlistOfString s).components.headD [] ≠ "Redemption Game".data ∧
       (catlistOfString s).components.headD [] ≠ "Medal Game".data)) :
    (machineTypeOf (catlistOfString s)).isSome ∧
    (genreOf (catlistOfString s)).isSome ∧
    (subgenreOf (catlistOfString s)).isSome :=
  catlist_total_core (catlistOfString s) (catlist_components_ne_nil s) h

/-- C3 witness: the amended theorem applied at the concrete unknown-pattern
string from the spec, which classifies as `Other` without error. -/
theorem catlist_parser_total_amended_witness :
    (machineTypeOf (catlistOfString "Unknown Category Type".data)).isSome ∧
    (genreOf (catlistOfString "Unknown Category Type".data)).isSome ∧
    (subgenreOf (catlistOfString "Unknown Category Type".data)).isSome :=
  catlist_parser_total_amended "Unknown Category Type".data (Or.inr (by decide))

/-- C8 counterexample: parsing `"Electromechanical / Pinball"` does not give
genre `"Pinball"` — the genre property returns Python `None` (the machine
type `Pinball` is not in the set the genre branch tests). -/
theorem electromechanical_pinball_genre_cex :
    genreOf (catlistOfString "Electromechanical / Pinball".data) ≠
      some (some "Pinball".data) := by
  decide

/-- C8 (amended): `"Electromechanical / Pinball"` yields machine_type
`Pinball`, genre `None` and subgenre `None`. -/
theorem electromechanical_pinball_classification :
    machineTypeOf (catlistOfString "Electromechanical / Pinball".data) = some .Pinball ∧
    genreOf (catlistOfString "Electromechanical / Pinball".data) = some none ∧
    subgenreOf (catlistOfString "Electromechanical / Pinball".data) = some none := by
  decide

/-- C1: the blocking and suspend-capable construction surfaces are not
observably identical.  For clone `c` (parent `p`, declared BIOS pointer
duplicating the parent pointer, parent's BIOS `b`), `get_machine` resolves
the `bios` collaborator from the declared pointer — machine `p` itself, so
`bios_name` is the parent's name — while `get_machine_async` resolves it
from the parent's corrected `bios_basename` — machine `b`. -/
theorem get_machine_surfaces_differ_on_clone_bios :
    biosNameOfResult (getMachine exSrc 5 "c".data) = some (some "Parent game".data) ∧
    biosNameOfResult (getMachineAsync exSrc 5 "c".data) = some (some "BIOS board".data) ∧
    biosNameOfResult (getMachine exSrc 5 "c".data) ≠
      biosNameOfResult (getMachineAsync exSrc 5 "c".data) := by
  decide

/-- C2: `Machine.bios_basename` performs the single-hop BIOS self-reference
correction: when the declared (truthy) BIOS pointer equals the parent
pointer, the effective BIOS basename is the parent machine's effective
(already-corrected) one; otherwise the declared value is returned
unchanged. -/
theorem bios_self_reference_correction
    (el : MachineElementM) (parent bios : Option MachineM) :
    (∀ pm b, parent = some pm → el.biosBasename = some b → b ≠ [] →
      el.parentBasename = some b →
      (MachineM.mk el parent bios).biosBasename = pm.biosBasename) ∧
    ((el.biosBasename ≠ el.parentBasename ∨ el.parentBasename = none) →
      (MachineM.mk el parent bios).biosBasename = some el.biosBasename) := by
  constructor
  · rintro pm b rfl hbb hbne hpb
    simp [MachineM.biosBasename, hbb, hpb, pyName, hbne]
  · intro hne
    cases parent with
    | some pm =>
      simp only [MachineM.biosBasename]
      rw [if_neg]
      rintro ⟨hsome, heq⟩
      rcases hne with hne | hne
      · exact hne heq
      · rw [hne] at heq
        simp [heq, pyName] at hsome
    | none =>
      simp only [MachineM.biosBasename]
      rw [if_neg]
      rintro ⟨hsome, heq⟩
      rcases hne with hne | hne
      · exact hne heq
      · rw [hne] at heq
        simp [heq, pyName] at hsome

/-- C2 witness: the correction theorem applied to a concrete clone whose
BIOS pointer duplicates its parent pointer, and to a concrete machine whose
pointers differ. -/
theorem bios_self_reference_correction_witness :
    (MachineM.mk elW (some pW) none).biosBasename = pW.biosBasename ∧
    (MachineM.mk elW2 (some pW) none).biosBasename = some elW2.biosBasename :=
  ⟨(bios_self_reference_correction elW (some pW) none).1 pW "p".data rfl rfl
      (by decide) rfl,
   (bios_self_reference_correction elW2 (some pW) none).2 (Or.inl (by decide))⟩

/-- C4: with input text whose final section `WIP:` is still open at
end-of-input, `MAMEInfoEntry.__init__` never flushes it — the accumulated
lines are dropped and no `WIP` key appears in any bucket. -/
theorem mameinfo_open_section_dropped_at_eof :
    getKey (mameInfoOf "0.1 [author]\nWIP:\n- Fixed thing".data).sections "WIP".data
      = none ∧
    (mameInfoOf "0.1 [author]\nWIP:\n- Fixed thing".data).sections =
      [("summary".data, "0.1 [author]".data)] ∧
    (mameInfoOf "0.1 [author]\nWIP:\n- Fixed thing".data).listSections = [] ∧
    (mameInfoOf "0.1 [author]\nWIP:\n- Fixed thing".data).recommendedGames = [] := by
  decide

/-- C7 counterexample: when the declared parent basename `ghost` is absent
from the entity source, `get_machine` raises `KeyError('ghost')` — for a
basename other than the requested `c` — instead of degrading the parent to
absent. -/
theorem missing_parent_raises_key_error :
    errOfResult (getMachine srcMissingParent 5 "c".data) =
      some (.keyError "ghost".data) ∧
    ("ghost".data : List Char) ≠ "c".data := by
  decide

/-- C7 (amended): when a machine's declared (truthy) parent basename is
absent from the entity source, `get_machine` propagates the lookup's
`KeyError` for the parent basename: NotFound is raised for referenced
basenames too, not only for the requested one, and the parent reference
does not degrade to absent. -/
theorem missing_parent_propagates_not_found
    (src : MachineSrc) (fuel : Nat) (basename pb : List Char) (el : MachineElementM)
    (hlook : getKey src basename = some el)
    (hpb : pyName el.parentBasename = some pb)
    (hmiss : getKey src pb = none) :
    getMachine src (fuel + 2) basename = Except.error (.keyError pb) := by
  simp [getMachine, getMachineElement, hlook, hpb, hmiss, Except.map,
    Bind.bind, Except.bind, Pure.pure, Except.pure]

/-- C7 witness: the amended theorem at the concrete one-machine source. -/
theorem missing_parent_propagates_not_found_witness :
    getMachine srcMissingParent 3 "c".data = Except.error (.keyError "ghost".data) :=
  missing_parent_propagates_not_found srcMissingParent 1 "c".data "ghost".data
    ⟨"c".data, "Lone clone".data, some "ghost".data, none⟩
    (by decide) (by decide) (by decide)

/-- C9: when no play-time store is configured, the store fails to load, or
the basename has no row, the play-time properties return the zero duration
and zero count — their return types are not nullable. -/
theorem playtime_zero_defaults
    (settings : MSettings) (loadDb : List Char → Option TimerDB) (basename : List Char)
    (h : settings.timerDbPath = none ∨
      (∃ p, settings.timerDbPath = some p ∧ loadDb p = none) ∨
      (∃ p db, settings.timerDbPath = some p ∧ loadDb p = some db ∧
        getKey db.systems basename = none)) :
    totalTimePlayed settings loadDb basename = 0 ∧
    totalTimeEmulated settings loadDb basename = 0 ∧
    playCount settings loadDb basename = 0 := by
  have hrow : timerDbRowOf settings loadDb basename = none := by
    rcases h with h | ⟨p, hp, hl⟩ | ⟨p, db, hp, hl, hk⟩ <;> simp [timerDbRowOf, *]
  simp [totalTimePlayed, totalTimeEmulated, playCount, hrow]

/-- C9 witness: the defaults theorem with no configured store. -/
theorem playtime_zero_defaults_witness :
    totalTimePlayed ⟨none⟩ (fun _ => none) "pacman".data = 0 ∧
    totalTimeEmulated ⟨none⟩ (fun _ => none) "pacman".data = 0 ∧
    playCount ⟨none⟩ (fun _ => none) "pacman".data = 0 :=
  playtime_zero_defaults ⟨none⟩ (fun _ => none) "pacman".data (Or.inl rfl)

/-- C6 counterexample: basename `m` sits in sections `A` (first in file
order) and `B` of the `genre` category.  `get_cat` takes
`next(iter(...))` of a Python `set`, whose iteration order is unspecified
(string hashing is randomized per run): under one legal enumeration order it
answers `A`, under another legal (reversed) order it answers `B` — not the
first section in file order on every run. -/
theorem get_cat_order_unspecified_cex :
    getCats exFolder "genre".data "m".data = ["A".data, "B".data] ∧
    List.Perm (List.reverse (getCats exFolder "genre".data "m".data))
      (getCats exFolder "genre".data "m".data) ∧
    getCat id exFolder "genre".data "m".data = some "A".data ∧
    getCat List.reverse exFolder "genre".data "m".data = some "B".data ∧
    some "B".data ≠ some "A".data := by
  decide

/-- C6 (amended): for any enumeration order of the match set, `get_cat`
returns `None` exactly when there is no match (in particular when the
category is unknown, where `get_cats` is empty), and otherwise returns
*some* matching section — which one is unspecified, set-iteration-order
dependent, rather than the first in file order; ambiguity is only a logged
warning. -/
theorem get_cat_amended
    (enum : List (List Char) → List (List Char)) (folder : CatFolder)
    (catName basename : List Char)
    (henum : ∀ l, List.Perm (enum l) l) :
    (getCat enum folder catName basename = none ↔
      getCats folder catName basename = []) ∧
    (∀ s, getCat enum folder catName basename = some s →
      s ∈ getCats folder catName basename) ∧
    (getKey folder catName = none → getCats folder catName basename = []) := by
  refine ⟨⟨?_, ?_⟩, ?_, ?_⟩
  · intro hn
    by_contra hne
    simp only [getCat] at hn
    rw [if_neg hne] at hn
    have he : enum (getCats folder catName basename) = [] :=
      List.head?_eq_none_iff.mp hn
    have hperm := (henum (getCats folder catName basename)).symm
    rw [he] at hperm
    exact hne (List.Perm.eq_nil hperm)
  · intro he
    simp [getCat, he]
  · intro s hs
    simp only [getCat] at hs
    by_cases he : getCats folder catName basename = []
    · rw [if_pos he] at hs
      exact absurd hs (by simp)
    · rw [if_neg he] at hs
      have hmem : s ∈ enum (getCats folder catName basename) := by
        rcases hh : enum (getCats folder catName basename) with _ | ⟨a, t⟩
        · rw [hh] at hs
          exact absurd hs (by simp)
        · rw [hh] at hs
          simp only [List.head?] at hs
          obtain rfl := Option.some.inj hs
          simp [hh]
      exact (henum (getCats folder catName basename)).mem_iff.mp hmem
  · intro hk
    simp [getCats, hk]

/-- C6 witness: the amended theorem at the identity enumeration order and an
unknown category of the concrete folder. -/
theorem get_cat_amended_witness :
    (getCat id exFolder "nope".data "m".data = none ↔
      getCats exFolder "nope".data "m".data = []) ∧
    (∀ s, getCat id exFolder "nope".data "m".data = some s →
      s ∈ getCats exFolder "nope".data "m".data) ∧
    (getKey exFolder "nope".data = none → getCats exFolder "nope".data "m".data = []) :=
  get_cat_amended id exFolder "nope".data "m".data (fun l => List.Perm.refl l)

theorem findSub_single (cch : Char) : ∀ (x y : List Char), cch ∉ x →
    findSub [cch] (x ++ cch :: y) = some (x, y)
  | [], y, _ => by
    simp [findSub, List.isPrefixOf]
  | a :: x', y, hmem => by
    have ha : ¬a = cch := by
      intro h
      exact hmem (by simp [h])
    have hr := findSub_single cch x' y (fun h => hmem (List.mem_cons_of_mem _ h))
    simp [findSub, List.isPrefixOf, Ne.symm ha, hr]

theorem isPrefixOf_self_append (x y : List Char) : x.isPrefixOf (x ++ y) = true := by
  rw [List.isPrefixOf_iff_prefix]
  exact List.prefix_append x y

theorem datGo_skip : ∀ (pre rest : List (List Char)) (d : List (List Char × List Char)),
    (∀ l ∈ pre, ¬"$info".data.isPrefixOf (pyStrip l) = true) →
    datGo (pre ++ rest) none [] d = datGo rest none [] d
  | [], _, _, _ => rfl
  | raw :: pre', rest, d, hp => by
    have h1 : ¬"$info".data.isPrefixOf (pyStrip raw) = true := hp raw (by simp)
    have hr := datGo_skip pre' rest d (fun l hl => hp l (by simp [hl]))
    simp [datGo, h1, hr]

theorem datGo_drain : ∀ (trail : List (List Char)) (ci : List (List Char))
    (d : List (List Char × List Char)),
    (∀ l ∈ trail, ¬"$info".data.isPrefixOf (pyStrip l) = true) →
    datGo trail none ci d = some d
  | [], _, _, _ => rfl
  | raw :: trail', ci, d, hp => by
    have h1 : ¬"$info".data.isPrefixOf (pyStrip raw) = true := hp raw (by simp)
    have hr := datGo_drain trail' ci d (fun l hl => hp l (by simp [hl]))
    simp [datGo, h1, hr]

theorem datGo_collect : ∀ (content : List (List Char)) (acc : List (List Char))
    (nm : List Char) (d : List (List Char × List Char)) (trail : List (List Char)),
    (∀ l ∈ content, pyStrip l ≠ "$end".data ∧
      ¬"$info".data.isPrefixOf (pyStrip l) = true) →
    (∀ l ∈ trail, ¬"$info".data.isPrefixOf (pyStrip l) = true) →
    datGo (content ++ "$end".data :: trail) (some nm) acc d =
      some (setKey d nm (joinNL ((acc ++ content.map pyStrip).drop 1)))
  | [], acc, nm, d, trail, _, ht => by
    have hstrip : pyStrip "$end".data = "$end".data := by decide
    have hpre : ¬"$info".data.isPrefixOf ("$end".data : List Char) = true := by decide
    simp only [List.nil_append, datGo, hstrip, hpre]
    rw [datGo_drain trail acc _ ht]
    simp
  | l :: content', acc, nm, d, trail, hc, ht => by
    have h1 := hc l (by simp)
    have hr := datGo_collect content' (acc ++ [pyStrip l]) nm d trail
      (fun x hx => hc x (by simp [hx])) ht
    simp only [List.cons_append, datGo, h1.1, h1.2]
    simp [hr, List.append_assoc]

/-- C10: for a well-formed `$info=<basename>` block (arbitrary non-block
junk before and after, a marker line, then content lines that are neither
`$end` nor block starts), the stored content is exactly the
whitespace-stripped content lines joined by newlines with the block's first
line (the marker) discarded, so `get_dat_info` never includes it. -/
theorem dat_block_content_skips_marker
    (pre trail content : List (List Char)) (b marker : List Char)
    (hpre : ∀ l ∈ pre, ¬"$info".data.isPrefixOf (pyStrip l) = true)
    (hb : pyStrip ("$info=".data ++ b) = "$info=".data ++ b)
    (hmk : pyStrip marker ≠ "$end".data ∧
      ¬"$info".data.isPrefixOf (pyStrip marker) = true)
    (hcontent : ∀ l ∈ content, pyStrip l ≠ "$end".data ∧
      ¬"$info".data.isPrefixOf (pyStrip l) = true)
    (htrail : ∀ l ∈ trail, ¬"$info".data.isPrefixOf (pyStrip l) = true) :
    getDatInfo
      (pre ++ ("$info=".data ++ b) :: marker :: (content ++ "$end".data :: trail)) b =
      some (some (joinNL (content.map pyStrip))) := by
  have hsplit : ("$info=".data : List Char) ++ b = "$info".data ++ '=' :: b := rfl
  have hpfx : "$info".data.isPrefixOf ("$info=".data ++ b) = true := by
    rw [hsplit]
    have : ('=' :: b : List Char) = ['='] ++ b := rfl
    exact isPrefixOf_self_append "$info".data ('=' :: b)
  have heq : datAfterEq ("$info=".data ++ b) = some b := by
    rw [datAfterEq, hsplit, findSub_single '=' "$info".data b (by decide)]
    rfl
  have step1 : parseDatRaw
      (pre ++ ("$info=".data ++ b) :: marker :: (content ++ "$end".data :: trail)) =
      datGo (("$info=".data ++ b) :: marker :: (content ++ "$end".data :: trail))
        none [] [] :=
    datGo_skip pre _ [] hpre
  rw [getDatInfo, step1]
  have step2 : datGo (("$info=".data ++ b) :: marker :: (content ++ "$end".data :: trail))
      none [] [] =
      datGo (marker :: (content ++ "$end".data :: trail)) (some b) [] [] := by
    have hb3 : pyStrip ('$' :: 'i' :: 'n' :: 'f' :: 'o' :: '=' :: b) =
        '$' :: 'i' :: 'n' :: 'f' :: 'o' :: '=' :: b := hb
    have hpfx3 : (['$', 'i', 'n', 'f', 'o'] : List Char) <+:
        '$' :: 'i' :: 'n' :: 'f' :: 'o' :: '=' :: b := ⟨'=' :: b, rfl⟩
    have heq3 : datAfterEq ('$' :: 'i' :: 'n' :: 'f' :: 'o' :: '=' :: b) = some b := heq
    simp [datGo, hb3, hpfx3, heq3]
  rw [step2]
  have step3 := datGo_collect (marker :: content) [] b [] trail
    (by
      intro x hx
      rcases List.mem_cons.mp hx with h | h
      · exact h ▸ hmk
      · exact hcontent x h)
    htrail
  simp only [List.cons_append] at step3
  rw [step3]
  simp [setKey, getKey]

/-- C10 witness: the block theorem at a concrete five-line .dat file; the
`$mame` marker line does not appear in the stored content. -/
theorem dat_block_content_skips_marker_witness :
    getDatInfo ["$info=mario".data, "$mame".data, "first line".data, " second ".data,
      "$end".data] "mario".data = some (some "first line\nsecond".data) :=
  dat_block_content_skips_marker [] [] ["first line".data, " second ".data]
    "mario".data "$mame".data (by decide) (by decide) (by decide) (by decide) (by decide)

theorem drop_length_takeWhile (p : Char → Bool) :
    ∀ l : List Char, l.drop (l.takeWhile p).length = l.dropWhile p
  | [] => rfl
  | c :: rest => by
    by_cases h : p c
    · simp [List.takeWhile_cons, List.dropWhile_cons, h, drop_length_takeWhile p rest]
    · simp [List.takeWhile_cons, List.dropWhile_cons, h]

theorem matchHead_sound (l h b : List Char) (hm : matchHead l = some (h, b)) :
    l = '\n' :: '-' :: ' ' :: (h ++ [' ', '-', '\n']) ++ b ∧ h ≠ [] := by
  rcases l with _ | ⟨c1, _ | ⟨c2, _ | ⟨c3, rest⟩⟩⟩
  · simp [matchHead] at hm
  · simp [matchHead] at hm
  · simp [matchHead] at hm
  simp only [matchHead] at hm
  by_cases h123 : c1 = '\n' ∧ c2 = '-' ∧ c3 = ' '
  swap
  · rw [if_neg h123] at hm
    exact absurd hm (by simp)
  rw [if_pos h123] at hm
  obtain ⟨rfl, rfl, rfl⟩ := h123
  rcases hd : rest.drop (rest.takeWhile (fun c => c ≠ '\n')).length with _ | ⟨c4, tail'⟩
  · simp only [hd] at hm
    exact absurd hm (by simp)
  simp only [hd] at hm
  by_cases h4 : c4 = '\n'
  swap
  · rw [if_neg h4] at hm
    exact absurd hm (by simp)
  rw [if_pos h4] at hm
  subst h4
  rcases hrev : (rest.takeWhile (fun c => c ≠ '\n')).reverse with _ | ⟨d1, _ | ⟨d2, grev⟩⟩
  · simp only [hrev] at hm
    exact absurd hm (by simp)
  · simp only [hrev] at hm
    exact absurd hm (by simp)
  simp only [hrev] at hm
  by_cases h12 : d1 = '-' ∧ d2 = ' ' ∧ grev ≠ []
  swap
  · rw [if_neg h12] at hm
    exact absurd hm (by simp)
  rw [if_pos h12] at hm
  obtain ⟨rfl, rfl, hgrev⟩ := h12
  simp only [Option.some.injEq, Prod.mk.injEq] at hm
  obtain ⟨hmh, hmb⟩ := hm
  subst hmh
  subst hmb
  have hu : rest.takeWhile (fun c => c ≠ '\n') = grev.reverse ++ [' ', '-'] := by
    have := congrArg List.reverse hrev
    simpa using this
  have hrest : rest = rest.takeWhile (fun c => c ≠ '\n') ++ '\n' :: tail' := by
    have h1 := List.takeWhile_append_dropWhile (fun c => c ≠ '\n') rest
    have h2 := drop_length_takeWhile (fun c => c ≠ '\n') rest
    rw [hd] at h2
    rw [h2, h1]
  constructor
  · rw [hrest, hu]
    simp
  · simp [hgrev]

theorem findDelim_sound : ∀ (l a h b : List Char), findDelim l = some (a, h, b) →
    l = a ++ delimOf h ++ b ∧ h ≠ []
  | [], a, h, b, hm => by simp [findDelim] at hm
  | c :: rest, a, h, b, hm => by
    simp only [findDelim] at hm
    rcases hmh : matchHead (c :: rest) with _ | ⟨hh, bb⟩
    · simp only [hmh] at hm
      rcases hfd : findDelim rest with _ | ⟨a', h', b'⟩
      · simp [hfd] at hm
      simp only [hfd, Option.some.injEq, Prod.mk.injEq] at hm
      obtain ⟨ha, hhh, hbb⟩ := hm
      subst ha
      subst hhh
      subst hbb
      obtain ⟨hrest, hne⟩ := findDelim_sound rest a' h' b' hfd
      exact ⟨by simp [hrest], hne⟩
    · simp only [hmh, Option.some.injEq, Prod.mk.injEq] at hm
      obtain ⟨ha, hhh, hbb⟩ := hm
      subst ha
      subst hhh
      subst hbb
      obtain ⟨hrest, hne⟩ := matchHead_sound (c :: rest) hh bb hmh
      exact ⟨by simp [hrest, delimOf], hne⟩

theorem findDelim_shrink (l a h b : List Char) (hm : findDelim l = some (a, h, b)) :
    b.length < l.length := by
  have hl := (findDelim_sound l a h b hm).1
  rw [hl]
  simp [delimOf]
  omega

theorem splitPiecesF_stable : ∀ (fuel₁ fuel₂ : Nat) (l : List Char),
    l.length ≤ fuel₁ → l.length ≤ fuel₂ → splitPiecesF fuel₁ l = splitPiecesF fuel₂ l
  | 0, 0, _, _, _ => rfl
  | 0, _ + 1, l, h1, _ => by
    have : l = [] := List.eq_nil_of_length_eq_zero (Nat.le_zero.mp h1)
    subst this
    simp [splitPiecesF, findDelim]
  | _ + 1, 0, l, _, h2 => by
    have : l = [] := List.eq_nil_of_length_eq_zero (Nat.le_zero.mp h2)
    subst this
    simp [splitPiecesF, findDelim]
  | f1 + 1, f2 + 1, l, h1, h2 => by
    simp only [splitPiecesF]
    rcases hfd : findDelim l with _ | ⟨a, hh, b⟩
    · rfl
    have hlt := findDelim_shrink l a hh b hfd
    simp [splitPiecesF_stable f1 f2 b (by omega) (by omega)]

theorem reassemble_splitPiecesF : ∀ (fuel : Nat) (l : List Char), l.length ≤ fuel →
    reassemble (splitPiecesF fuel l) = l
  | 0, l, h => by
    have : l = [] := List.eq_nil_of_length_eq_zero (Nat.le_zero.mp h)
    subst this
    rfl
  | fuel + 1, l, h => by
    simp only [splitPiecesF]
    rcases hfd : findDelim l with _ | ⟨a, hh, b⟩
    · rfl
    obtain ⟨hl, _⟩ := findDelim_sound l a hh b hfd
    have hlt := findDelim_shrink l a hh b hfd
    have hr := reassemble_splitPiecesF fuel b (by omega)
    simp [reassemble, hr, hl]

theorem splitPiecesF_length : ∀ (fuel : Nat) (l : List Char),
    (splitPiecesF fuel l).length = 2 * countDelimsF fuel l + 1
  | 0, _ => rfl
  | fuel + 1, l => by
    simp only [splitPiecesF, countDelimsF]
    rcases hfd : findDelim l with _ | ⟨a, hh, b⟩
    · simp
    · simp [splitPiecesF_length fuel b]
      omega

theorem splitPiecesF_headers_ne_nil : ∀ (fuel : Nat) (l h : List Char),
    h ∈ odds (splitPiecesF fuel l) → h ≠ []
  | 0, l, h, hm => by simp [splitPiecesF, odds] at hm
  | fuel + 1, l, h, hm => by
    simp only [splitPiecesF] at hm
    rcases hfd : findDelim l with _ | ⟨a, hh, b⟩
    · rw [hfd] at hm
      simp [odds] at hm
    rw [hfd] at hm
    simp only [odds] at hm
    rcases List.mem_cons.mp hm with rfl | hm'
    · exact (findDelim_sound l a h b hfd).2
    · exact splitPiecesF_headers_ne_nil fuel b h hm'

theorem setKey_not_mem {α : Type} (k : List Char) (v : α) :
    ∀ (d : List (List Char × α)), k ∉ d.map Prod.fst → setKey d k v = d ++ [(k, v)] := by
  intro d
  induction d with
  | nil => intro _; rfl
  | cons kv rest ih =>
    intro h
    obtain ⟨k', v'⟩ := kv
    simp only [List.map_cons, List.mem_cons, not_or] at h
    have hne : ¬k' = k := fun hk => h.1 hk.symm
    simp only [setKey, hne, if_false]
    rw [ih h.2]
    simp

theorem goPairs_zip : ∀ (rest : List (List Char)) (acc : List (List Char × List Char)),
    (pairKeys rest).Nodup →
    (∀ h ∈ pairKeys rest, h ∉ acc.map Prod.fst) →
    goPairs acc rest = acc ++ List.zip (pairKeys rest) ((pairVals rest).map pyStrip)
  | [], acc, _, _ => by simp [goPairs, pairKeys, pairVals]
  | [h], acc, _, _ => by simp [goPairs, pairKeys, pairVals]
  | h :: p :: rest', acc, hnd, hdis => by
    have hh : h ∉ acc.map Prod.fst := hdis h (by simp [pairKeys])
    have hset := setKey_not_mem h (pyStrip p) acc hh
    have hcons := List.nodup_cons.mp (by simpa [pairKeys] using hnd)
    have hdis' : ∀ x ∈ pairKeys rest', x ∉ ((acc ++ [(h, pyStrip p)]).map Prod.fst) := by
      intro x hx
      simp only [List.map_append, List.mem_append]
      rintro (hmem | hmem)
      · exact hdis x (by simp [pairKeys, hx]) hmem
      · simp at hmem
        subst hmem
        exact hcons.1 hx
    simp only [goPairs]
    rw [hset, goPairs_zip rest' (acc ++ [(h, pyStrip p)]) hcons.2 hdis']
    simp [pairKeys, pairVals]

theorem odds_cons_even : ∀ (r : List (List Char)) (x : List Char), r.length % 2 = 0 →
    odds (x :: r) = pairKeys r
  | [], _, _ => rfl
  | [_], _, hp => by simp at hp
  | h :: p :: r', x, hp => by
    have hr := odds_cons_even r' p (by simp only [List.length_cons] at hp ⊢; omega)
    simp [odds, pairKeys, hr]

theorem evens_cons_even : ∀ (r : List (List Char)) (x : List Char), r.length % 2 = 0 →
    evens (x :: r) = x :: pairVals r
  | [], _, _ => rfl
  | [_], _, hp => by simp at hp
  | h :: p :: r', x, hp => by
    have hr := evens_cons_even r' p (by simp only [List.length_cons] at hp ⊢; omega)
    simp [evens, pairVals, hr]

theorem pairKeys_length {α : Type} : ∀ (r : List α), (pairKeys r).length = r.length / 2
  | [] => by simp [pairKeys]
  | [_] => by simp [pairKeys]
  | _ :: _ :: r => by
    simp [pairKeys, pairKeys_length r]
    omega

theorem pairVals_length {α : Type} : ∀ (r : List α), (pairVals r).length = r.length / 2
  | [] => by simp [pairVals]
  | [_] => by simp [pairVals]
  | _ :: _ :: r => by
    simp [pairVals, pairVals_length r]
    omega

/-- C5 counterexample: the text `a\n- X -\nb\n- X -\nc` contains N = 2
occurrences of the delimiter pattern with the same header `X` twice, but the
returned mapping has only 2 entries, not N + 1 = 3 — and the body `b` of the
first `X` section is overwritten by `c`, so concatenating the bucket bodies
cannot reconstruct the source. -/
theorem info_sections_duplicate_header_collapses :
    countDelims "a\n- X -\nb\n- X -\nc".data = 2 ∧
    (parseInfoSections "a\n- X -\nb\n- X -\nc".data).length = 2 ∧
    parseInfoSections "a\n- X -\nb\n- X -\nc".data =
      [([], "a".data), ("X".data, "c".data)] := by
  decide

/-- C5 (amended): when the N matched headers are pairwise distinct, the
splitter returns exactly N + 1 buckets; the buckets are the empty-string
lead-in followed by each header mapped to its trimmed body in original
order, and re-interleaving the untrimmed pieces with their delimiter markers
reconstructs the source text exactly (round trip modulo markers and
trimming).  The N = 0 case is the single trimmed-input bucket. -/
theorem info_sections_split_laws (text : List Char)
    (hnd : (odds (splitPieces text)).Nodup) :
    reassemble (splitPieces text) = text ∧
    (parseInfoSections text).length = countDelims text + 1 ∧
    parseInfoSections text =
      List.zip ([] :: odds (splitPieces text)) ((evens (splitPieces text)).map pyStrip) := by
  have hlen : (splitPieces text).length = 2 * countDelims text + 1 :=
    splitPiecesF_length text.length text
  have hre : reassemble (splitPieces text) = text :=
    reassemble_splitPiecesF text.length text le_rfl
  rcases hp : splitPieces text with _ | ⟨p0, rest⟩
  · rw [hp] at hlen
    simp at hlen
  rw [hp] at hre
  have hrestlen : rest.length % 2 = 0 := by
    rw [hp] at hlen
    simp only [List.length_cons] at hlen
    omega
  have hodds : odds (p0 :: rest) = pairKeys rest := odds_cons_even rest p0 hrestlen
  have hevens : evens (p0 :: rest) = p0 :: pairVals rest := evens_cons_even rest p0 hrestlen
  have hnd' : (pairKeys rest).Nodup := by
    rw [hp, hodds] at hnd
    exact hnd
  have hne : ∀ h ∈ pairKeys rest, h ≠ [] := by
    intro h hm
    apply splitPiecesF_headers_ne_nil text.length text h
    have : splitPiecesF text.length text = splitPieces text := rfl
    rw [this, hp, hodds]
    exact hm
  have hdis : ∀ h ∈ pairKeys rest, h ∉ ([([], pyStrip p0)] : List (List Char × List Char)).map Prod.fst := by
    intro h hm
    simp only [List.map_cons, List.map_nil, List.mem_singleton]
    exact hne h hm
  have hgo := goPairs_zip rest [([], pyStrip p0)] hnd' hdis
  have hps : parseInfoSections text =
      ([], pyStrip p0) :: List.zip (pairKeys rest) ((pairVals rest).map pyStrip) := by
    rw [parseInfoSections, hp]
    simp [buildSections, hgo]
  refine ⟨hre, ?_, ?_⟩
  · rw [hps]
    have hk := pairKeys_length rest
    have hv := pairVals_length rest
    simp only [List.length_cons, List.length_zip, List.length_map, hk, hv]
    rw [hp] at hlen
    simp only [List.length_cons] at hlen
    omega
  · rw [hps, hodds, hevens]
    simp

/-- C5 witness: the split laws at a concrete one-delimiter text. -/
theorem info_sections_split_laws_witness :
    reassemble (splitPieces "intro\n- TRIVIA -\n body ".data) =
      "intro\n- TRIVIA -\n body ".data ∧
    (parseInfoSections "intro\n- TRIVIA -\n body ".data).length =
      countDelims "intro\n- TRIVIA -\n body ".data + 1 ∧
    parseInfoSections "intro\n- TRIVIA -\n body ".data =
      List.zip ([] :: odds (splitPieces "intro\n- TRIVIA -\n body ".data))
        ((evens (splitPieces "intro\n- TRIVIA -\n body ".data)).map pyStrip) :=
  info_sections_split_laws "intro\n- TRIVIA -\n body ".data (by decide)
